import Mathlib

/-!
Verification of the c8vm CHIP-8 interpreter and its time-travel debugger.

The definitions below are a shallow embedding of `src/run/interp.rs`
(instruction decoding, the interpreter state, `fetch`, `exec`, `step`,
`undo`, and the history fragments) and of the history ring in
`src/dbg/hist.rs`.  Machine integers are modelled as `Nat` with explicit
`% 2^w` where overflow can occur; fallible operations return `Option` or an
explicit result type, and a Rust panic is modelled as `none` / a dedicated
constructor.  Modules of the repository that are not part of the provided
sources (`run/disp.rs`, `run/prog.rs`, `run/vm.rs`) are modelled from the
specification and are marked as such in their doc comments.
-/

namespace C8

/-- Embeds `VFLAG` from interp.rs: register 15 is the flag register. -/
def VFLAG : Nat := 15

/-- Modelled from the spec: `PROGRAM_MEMORY_SIZE` lives in `run/prog.rs`,
which is not among the provided sources.  Spec §3: "Memory image: exactly
4096 bytes". -/
def PROGRAM_MEMORY_SIZE : Nat := 4096

/-- Modelled from the spec: `PROGRAM_STARTING_ADDRESS` lives in
`run/prog.rs`.  Spec §3: "A 12-bit program counter PC (starts at 0x200)". -/
def PROGRAM_STARTING_ADDRESS : Nat := 0x200

/-- Embeds `FONT_STARTING_ADDRESS` from interp.rs. -/
def FONT_STARTING_ADDRESS : Nat := 0x50

/-- Embeds `FONT_CHAR_DATA_SIZE` from interp.rs. -/
def FONT_CHAR_DATA_SIZE : Nat := 5

/-- Modelled from the spec: `ProgramKind` lives in `run/prog.rs`.  Spec §6.3
and the Glossary name exactly the two behavioral variants COSMAC-VIP and
CHIP-48. -/
inductive ProgramKind
  | COSMACVIP
  | CHIP48
deriving DecidableEq, Repr

/-- Embeds `InstructionParameters` from interp.rs: a 16 bit word decomposed into
its parts. -/
structure InstructionParameters where
  bits : Nat
  op : Nat
  x : Nat
  y : Nat
  n : Nat
  nn : Nat
  nnn : Nat
deriving DecidableEq, Repr

/-- Embeds `impl From<u16> for InstructionParameters`. -/
def InstructionParameters.ofBits (bits : Nat) : InstructionParameters where
  bits := bits
  op := (bits &&& 0xF000) >>> 12
  x := (bits &&& 0x0F00) >>> 8
  y := (bits &&& 0x00F0) >>> 4
  n := bits &&& 0x000F
  nn := bits &&& 0x00FF
  nnn := bits &&& 0x0FFF

/-- Embeds `Instruction` from interp.rs: the 35-case tagged instruction value. -/
inductive Instruction
  | ClearScreen
  | Jump (nnn : Nat)
  | JumpWithOffset (nnn : Nat) (x : Nat)
  | CallSubroutine (nnn : Nat)
  | SubroutineReturn
  | SkipIfEqualsConstant (x nn : Nat)
  | SkipIfNotEqualsConstant (x nn : Nat)
  | SkipIfEquals (x y : Nat)
  | SkipIfNotEquals (x y : Nat)
  | SkipIfKeyDown (x : Nat)
  | SkipIfKeyNotDown (x : Nat)
  | GetKey (x : Nat)
  | SetConstant (x nn : Nat)
  | AddConstant (x nn : Nat)
  | Set (x y : Nat)
  | Or (x y : Nat)
  | And (x y : Nat)
  | Xor (x y : Nat)
  | Add (x y : Nat)
  | Sub (x y : Nat) (vx_minus_vy : Bool)
  | Shift (x y : Nat) (right : Bool)
  | GetDelayTimer (x : Nat)
  | SetDelayTimer (x : Nat)
  | SetSoundTimer (x : Nat)
  | SetIndex (nnn : Nat)
  | SetIndexToHexChar (x : Nat)
  | AddToIndex (x : Nat)
  | Load (x : Nat)
  | Store (x : Nat)
  | StoreDecimal (x : Nat)
  | GenerateRandom (x nn : Nat)
  | Display (x y n : Nat)
deriving DecidableEq, Repr

/-- Embeds `impl TryFrom<InstructionParameters> for Instruction` from interp.rs.
`none` models the `Err(..)` decode-error case (the error string is
irrelevant to the claims). -/
def decode (params : InstructionParameters) : Option Instruction :=
  match params.op with
  | 0x0 =>
    match params.nnn with
    | 0x0E0 => some .ClearScreen
    | 0x0EE => some .SubroutineReturn
    | _ => none
  | 0x1 => some (.Jump params.nnn)
  | 0x2 => some (.CallSubroutine params.nnn)
  | 0x3 => some (.SkipIfEqualsConstant params.x params.nn)
  | 0x4 => some (.SkipIfNotEqualsConstant params.x params.nn)
  | 0x5 => some (.SkipIfEquals params.x params.y)
  | 0x6 => some (.SetConstant params.x params.nn)
  | 0x7 => some (.AddConstant params.x params.nn)
  | 0x8 =>
    match params.n with
    | 0x0 => some (.Set params.x params.y)
    | 0x1 => some (.Or params.x params.y)
    | 0x2 => some (.And params.x params.y)
    | 0x3 => some (.Xor params.x params.y)
    | 0x4 => some (.Add params.x params.y)
    | 0x5 => some (.Sub params.x params.y true)
    | 0x6 => some (.Shift params.x params.y true)
    | 0x7 => some (.Sub params.x params.y false)
    | 0xE => some (.Shift params.x params.y false)
    | _ => none
  | 0x9 =>
    match params.n with
    | 0x0 => some (.SkipIfNotEquals params.x params.y)
    | _ => none
  | 0xA => some (.SetIndex params.nnn)
  | 0xB => some (.JumpWithOffset params.nnn params.x)
  | 0xC => some (.GenerateRandom params.x params.nn)
  | 0xD => some (.Display params.x params.y params.n)
  | 0xE =>
    match params.nn with
    | 0x9E => some (.SkipIfKeyDown params.x)
    | 0xA1 => some (.SkipIfKeyNotDown params.x)
    | _ => none
  | 0xF =>
    match params.nn with
    | 0x07 => some (.GetDelayTimer params.x)
    | 0x15 => some (.SetDelayTimer params.x)
    | 0x18 => some (.SetSoundTimer params.x)
    | 0x1E => some (.AddToIndex params.x)
    | 0x0A => some (.GetKey params.x)
    | 0x29 => some (.SetIndexToHexChar params.x)
    | 0x33 => some (.StoreDecimal params.x)
    | 0x55 => some (.Store params.x)
    | 0x65 => some (.Load params.x)
    | _ => none
  | _ => none

/-- Embeds `InterpreterInput` from interp.rs. -/
structure InterpreterInput where
  delay_timer : Nat
  down_keys : Nat
  just_pressed_key : Option Nat
  just_released_key : Option Nat
deriving DecidableEq, Repr

/-- Embeds `InterpreterRequest` from interp.rs. -/
inductive InterpreterRequest
  | Display
  | SetDelayTimer (v : Nat)
  | SetSoundTimer (v : Nat)
deriving DecidableEq, Repr

/-- Modelled from the spec: `DisplayBuffer` lives in `run/disp.rs`, which is
not among the provided sources.  Spec §3: "a 64×32 monochrome bit grid, one
bit per pixel, packed row-major".  The buffer is a list of 32 rows; bit `c`
of a row is the pixel in column `c`. -/
abbrev DisplayBuffer := List Nat

/-- Embeds `InterpreterOutput` from interp.rs. -/
structure InterpreterOutput where
  display : DisplayBuffer
  awaiting_input : Bool
  request : Option InterpreterRequest
deriving DecidableEq, Repr

/-- Modelled abstraction of `rand::rngs::StdRng` (an external crate):
the RNG state is the stream of `next_u32` draws it will produce, so cloning
and restoring the state restores the stream.  `next_u32` on an exhausted
model stream returns 0. -/
abbrev Rng := List Nat

/-- Embeds `PartialInterpreterStatePayload` from interp.rs. -/
inductive PartialInterpreterStatePayload
  | Rng (rng : C8.Rng)
  | Display (display : DisplayBuffer)
deriving DecidableEq, Repr

/-- Embeds `InterpreterHistoryFragment` from interp.rs. -/
structure InterpreterHistoryFragment where
  instruction : Option Instruction
  pc : Nat
  return_address : Nat
  index : Nat
  index_memory : List Nat
  registers : List Nat
  payload : Option PartialInterpreterStatePayload
deriving DecidableEq, Repr

/-- Embeds `Interpreter` from interp.rs.  `memory` is the 4096-byte image and
`registers` the 16-entry register file; their lengths are stated as
hypotheses where proofs need them.  The stack is a list whose head is the
top (the most recently pushed address).  `kind` is `program.kind`. -/
structure Interpreter where
  memory : List Nat
  pc : Nat
  index : Nat
  stack : List Nat
  registers : List Nat
  input : InterpreterInput
  output : InterpreterOutput
  kind : ProgramKind
  rng : Rng
deriving DecidableEq, Repr

/-- Register read `self.registers[i as usize]`. -/
def reg (it : Interpreter) (i : Nat) : Nat := it.registers.getD i 0

/-- Embeds a `copy_from_slice` into `dst[i .. i + src.length]`: the written image of
a contiguous in-place slice copy. -/
def writeSlice (dst : List Nat) (i : Nat) (src : List Nat) : List Nat :=
  dst.take i ++ src ++ dst.drop (i + src.length)

/-- Embeds `Interpreter::checked_addr_add` from interp.rs. -/
def checked_addr_add (it : Interpreter) (addr amt : Nat) : Option Nat :=
  let result_addr := (addr + amt) % 65536
  if addr < it.memory.length ∧ result_addr < it.memory.length ∧ addr + amt < 65536 then
    some result_addr
  else
    none

/-- Embeds `Interpreter::pick_key` from interp.rs. -/
def pick_key (it : Interpreter) (key_down key_up : Option Nat) : Option Nat :=
  match it.kind with
  | .COSMACVIP => key_up
  | _ => key_down

/-- Embeds `Interpreter::fetch` from interp.rs. -/
def fetch (it : Interpreter) : Option InstructionParameters :=
  if it.pc < it.memory.length - 1 then
    some (InstructionParameters.ofBits
      ((it.memory.getD it.pc 0) <<< 8 ||| it.memory.getD (it.pc + 1) 0))
  else
    none

/-- Modelled from the spec: one sprite row of `write_to_display`
(`run/disp.rs` is not among the provided sources).  Byte `b` is drawn with
its most significant bit at column `x`; columns clip at the right edge
(no wrap), per spec §4.3. -/
def spriteRowMask (x b : Nat) : Nat :=
  (List.range 8).foldl
    (fun acc k => if x + k < 64 then acc ||| (((b >>> (7 - k)) &&& 1) <<< (x + k)) else acc) 0

/-- Modelled from the spec: `write_to_display` from `run/disp.rs`, which is
not among the provided sources.  Spec §4.3 Display: "XOR an n-row, 8-column
sprite from memory[I..I+n] onto the display at (Vx mod 64, Vy mod 32).
Rows clip at the screen bottom; columns clip at the right edge (no wrap).
VF ← 1 iff any previously-set pixel was turned off."  Returns the updated
buffer and the collision flag. -/
def write_to_display (disp : DisplayBuffer) (sprite : List Nat) (x y height : Nat) :
    DisplayBuffer × Bool :=
  let x0 := x % 64
  let y0 := y % 32
  (List.range height).foldl
    (fun acc r =>
      if y0 + r < 32 then
        let m := spriteRowMask x0 (sprite.getD r 0)
        let old := acc.1.getD (y0 + r) 0
        (acc.1.set (y0 + r) (old ^^^ m), acc.2 || decide (old &&& m ≠ 0))
      else acc)
    (disp, false)

/-- Embeds `Interpreter::exec_display_instruction` from interp.rs. -/
def exec_display_instruction (it : Interpreter) (vx vy height : Nat) : Interpreter :=
  let res := write_to_display it.output.display (it.memory.drop it.index)
      (reg it vx) (reg it vy) height
  { it with
    output := { it.output with display := res.1 },
    registers := it.registers.set VFLAG (if res.2 then 1 else 0) }

/-- Result of `exec` / `step`: `ok` and `err` mirror `Result<(), String>`
threaded through `&mut self` (the carried state is the interpreter as
mutated so far), and `panic` models a Rust panic. -/
inductive ExecOut
  | ok (it : Interpreter)
  | err (it : Interpreter)
  | panic
deriving DecidableEq, Repr

/-- Embeds `Interpreter::exec` from interp.rs.  Each arm mirrors the source arm;
`.err` is produced exactly at the source's `return Err(..)` points (at which
the source has not yet mutated `self` in that arm), and `.panic` models the
`expect` on `SubroutineReturn` with an empty stack. -/
def exec (it : Interpreter) (inst : Instruction) : ExecOut :=
  match inst with
  | .ClearScreen =>
    .ok { it with output := { it.output with
            display := it.output.display.map (fun _ => 0),
            request := some .Display } }
  | .Jump pc => .ok { it with pc := pc }
  | .JumpWithOffset address vx =>
    let offset := if it.kind = .CHIP48 then reg it vx else reg it 0
    if offset < it.memory.length - address then
      .ok { it with pc := address + offset }
    else
      .err it
  | .CallSubroutine pc => .ok { it with stack := it.pc :: it.stack, pc := pc }
  | .SubroutineReturn =>
    match it.stack with
    | [] => .panic
    | a :: rest => .ok { it with pc := a, stack := rest }
  | .SkipIfEqualsConstant vx value =>
    .ok (if reg it vx = value then { it with pc := it.pc + 2 } else it)
  | .SkipIfNotEqualsConstant vx value =>
    .ok (if reg it vx ≠ value then { it with pc := it.pc + 2 } else it)
  | .SkipIfEquals vx vy =>
    .ok (if reg it vx = reg it vy then { it with pc := it.pc + 2 } else it)
  | .SkipIfNotEquals vx vy =>
    .ok (if reg it vx ≠ reg it vy then { it with pc := it.pc + 2 } else it)
  | .SkipIfKeyDown vx =>
    .ok (if (it.input.down_keys >>> reg it vx) &&& 1 = 1 then { it with pc := it.pc + 2 } else it)
  | .SkipIfKeyNotDown vx =>
    .ok (if (it.input.down_keys >>> reg it vx) &&& 1 = 0 then { it with pc := it.pc + 2 } else it)
  | .GetKey vx =>
    match pick_key it it.input.just_pressed_key it.input.just_released_key with
    | some key_code => .ok { it with registers := it.registers.set vx key_code }
    | none => .ok { it with pc := it.pc - 2 }
  | .SetConstant vx value => .ok { it with registers := it.registers.set vx value }
  | .AddConstant vx change =>
    .ok { it with registers := it.registers.set vx ((reg it vx + change) % 256) }
  | .Set vx vy => .ok { it with registers := it.registers.set vx (reg it vy) }
  | .Or vx vy => .ok { it with registers := it.registers.set vx (reg it vx ||| reg it vy) }
  | .And vx vy => .ok { it with registers := it.registers.set vx (reg it vx &&& reg it vy) }
  | .Xor vx vy => .ok { it with registers := it.registers.set vx (reg it vx ^^^ reg it vy) }
  | .Add vx vy =>
    let value := (reg it vx + reg it vy) % 256
    let overflowed := 256 ≤ reg it vx + reg it vy
    .ok { it with registers :=
            (it.registers.set vx value).set VFLAG (if overflowed then 1 else 0) }
  | .Sub vx vy vx_minus_vy =>
    let a := if vx_minus_vy then reg it vx else reg it vy
    let b := if vx_minus_vy then reg it vy else reg it vx
    let value := (256 + a - b) % 256
    let overflowed := a < b
    .ok { it with registers :=
            (it.registers.set vx value).set VFLAG (if overflowed then 0 else 1) }
  | .Shift vx vy right =>
    let bits :=
      match it.kind with
      | .COSMACVIP => reg it vy
      | _ => reg it vx
    if right then
      .ok { it with registers := (it.registers.set VFLAG (bits &&& 1)).set vx (bits >>> 1) }
    else
      .ok { it with registers :=
              (it.registers.set VFLAG ((bits >>> 7) &&& 1)).set vx ((bits <<< 1) % 256) }
  | .GetDelayTimer vx =>
    .ok { it with registers := it.registers.set vx it.input.delay_timer }
  | .SetDelayTimer vx =>
    .ok { it with output := { it.output with request := some (.SetDelayTimer (reg it vx)) } }
  | .SetSoundTimer vx =>
    .ok { it with output := { it.output with request := some (.SetSoundTimer (reg it vx)) } }
  | .SetIndex index => .ok { it with index := index }
  | .SetIndexToHexChar vx =>
    .ok { it with index := FONT_STARTING_ADDRESS + FONT_CHAR_DATA_SIZE * reg it vx }
  | .AddToIndex vx => .ok { it with index := (it.index + reg it vx) % 65536 }
  | .Load vx =>
    match checked_addr_add it it.index vx with
    | some addr =>
      let regs2 := writeSlice it.registers 0 ((it.memory.drop it.index).take (vx + 1))
      let it2 := { it with registers := regs2 }
      if it.kind = .COSMACVIP then .ok { it2 with index := (addr + 1) % 65536 } else .ok it2
    | none => .err it
  | .Store vx =>
    match checked_addr_add it it.index vx with
    | some addr =>
      let it2 := { it with memory := writeSlice it.memory it.index (it.registers.take (vx + 1)) }
      if it.kind = .COSMACVIP then .ok { it2 with index := (addr + 1) % 65536 } else .ok it2
    | none => .err it
  | .StoreDecimal vx =>
    match checked_addr_add it it.index 2 with
    | some _ =>
      let number := reg it vx
      .ok { it with memory :=
        ((it.memory.set (it.index + 2) (number % 10)).set
          (it.index + 1) (number / 10 % 10)).set it.index (number / 100 % 10) }
    | none => .err it
  | .GenerateRandom vx bound =>
    .ok { it with
      registers := it.registers.set vx ((it.rng.headD 0 &&& bound) % 256),
      rng := it.rng.tail }
  | .Display vx vy height =>
    match checked_addr_add it it.index (height - 1) with
    | some _ =>
      let it2 := exec_display_instruction it vx vy height
      .ok { it2 with output := { it2.output with request := some .Display } }
    | none => .err it

/-- Embeds `Interpreter::step` from interp.rs: clear the output request, fetch,
decode, advance PC by 2, execute; on an execution failure roll PC back
by 2. -/
def step (it0 : Interpreter) : ExecOut :=
  let it := { it0 with output := { it0.output with request := none } }
  match fetch it with
  | none => .err it
  | some params =>
    match decode params with
    | none => .err it
    | some inst =>
      match exec { it with pc := it.pc + 2 } inst with
      | .ok it2 => .ok it2
      | .err it2 => .err { it2 with pc := it2.pc - 2 }
      | .panic => .panic

/-- Embeds `impl From<&Interpreter> for InterpreterHistoryFragment` from interp.rs:
the pre-step history fragment. -/
def toFragment (interp : Interpreter) : InterpreterHistoryFragment :=
  let index := interp.index
  let index_memory : List Nat :=
    if index < interp.memory.length then
      let n := min (index + 16) interp.memory.length - index
      (interp.memory.drop index).take n ++ List.replicate (16 - n) 0
    else
      List.replicate 16 0
  let instruction := (fetch interp).bind decode
  { payload :=
      match instruction with
      | some (.GenerateRandom _ _) => some (.Rng interp.rng)
      | some .ClearScreen => some (.Display interp.output.display)
      | _ => none,
    pc := interp.pc,
    instruction := instruction,
    return_address := interp.stack.headD 0,
    index := interp.index,
    index_memory := index_memory,
    registers := interp.registers }

/-- Embeds `Interpreter::undo` from interp.rs.  `none` models a panic: the source's
`copy_from_slice` panics when the destination slice length
`n = min(index+16, memory.len()) - index` differs from the 16-byte source
length, and the `unreachable!` arms panic as well. -/
def undo (it0 : Interpreter) (prior : InterpreterHistoryFragment) : Option Interpreter :=
  let it1 := { it0 with pc := prior.pc, index := prior.index, registers := prior.registers }
  let index := it1.index
  let n := min (index + 16) it1.memory.length - index
  if n = 16 then
    let it2 := { it1 with memory := writeSlice it1.memory index prior.index_memory }
    match prior.instruction with
    | none => none
    | some inst =>
      match inst with
      | .CallSubroutine _ => some { it2 with stack := it2.stack.tail }
      | .SubroutineReturn => some { it2 with stack := prior.return_address :: it2.stack }
      | .Display vx vy height =>
        let it3 := exec_display_instruction it2 vx vy height
        some { it3 with registers := it3.registers.set VFLAG (prior.registers.getD VFLAG 0) }
      | .ClearScreen =>
        match prior.payload with
        | some (.Display display) => some { it2 with output := { it2.output with display := display } }
        | _ => none
      | .GenerateRandom _ _ =>
        match prior.payload with
        | some (.Rng rng) => some { it2 with rng := rng }
        | _ => none
      | _ => some it2
  else
    none

/-- Modelled from the spec: the VM layer (`run/vm.rs`, not among the
provided sources) maintains `output.awaiting_input`.  Spec §3:
"awaiting_input flag (true iff the last step was a blocking GetKey with no
key yet delivered)".  This predicate reads the instruction the next `step`
will execute and whether the key it would consume is absent. -/
def blocked_on_get_key (it : Interpreter) : Bool :=
  match (fetch it).bind decode with
  | some (.GetKey _) =>
    (pick_key it it.input.just_pressed_key it.input.just_released_key).isNone
  | _ => false

/-- Modelled from the spec: the VM-layer step (`run/vm.rs`, not among the
provided sources) runs `Interpreter::step` and maintains the
`awaiting_input` output flag per spec §3 and §4.3 GetKey. -/
def vmStep (it : Interpreter) : ExecOut :=
  match step it with
  | .ok it2 =>
    .ok { it2 with output := { it2.output with awaiting_input := blocked_on_get_key it } }
  | r => r

/-- The interpreter state with the output request cleared: the first thing
`Interpreter::step` does. -/
def clearReq (it : Interpreter) : Interpreter :=
  { it with output := { it.output with request := none } }

/-- The state `Interpreter::exec` runs on during a `step`: request cleared
and PC already advanced by 2. -/
def preExec (it : Interpreter) : Interpreter :=
  { it with output := { it.output with request := none }, pc := it.pc + 2 }

/-- The offset used by `JumpWithOffset`, as computed by `exec`. -/
def jump_offset (it : Interpreter) (x : Nat) : Nat :=
  if it.kind = .CHIP48 then reg it x else reg it 0

/-- The instructions step/undo round-trips are claimed for: everything but
ClearScreen, GenerateRandom, CallSubroutine and SubroutineReturn
(Display is included). -/
def allowed_for_undo : Instruction → Bool
  | .ClearScreen => false
  | .GenerateRandom _ _ => false
  | .CallSubroutine _ => false
  | .SubroutineReturn => false
  | _ => true

/-- The instructions whose `undo` arm is the default one (no
instruction-specific extra action): `allowed_for_undo` minus `Display`. -/
def plainInst : Instruction → Bool
  | .ClearScreen => false
  | .GenerateRandom _ _ => false
  | .CallSubroutine _ => false
  | .SubroutineReturn => false
  | .Display _ _ _ => false
  | _ => true

/-- Run one `step`; if it succeeded, run `undo` against the fragment taken
before the step.  `some none` therefore means: the step succeeded and the
subsequent undo panicked. -/
def step_then_undo (it : Interpreter) : Option (Option Interpreter) :=
  match step it with
  | .ok it2 => some (undo it2 (toFragment it))
  | _ => none

/-- Embeds `HISTORY_CAPACITY` from hist.rs. -/
def HISTORY_CAPACITY : Nat := 250000

/-- Embeds `History` from hist.rs.  The fragment type `F` abstracts
`VMHistoryFragment` (defined in `run/vm.rs`, which is not among the provided
sources); the history bookkeeping below never inspects a fragment beyond
equality.  `fragments` is kept front-to-back: the head is the oldest entry,
the one `pop_front` evicts. -/
structure History (F : Type) where
  fragments : List F
  present_fragment : Option F
  cursor : Nat
deriving DecidableEq, Repr

/-- Embeds `History::new` from hist.rs. -/
def History.new (F : Type) : History F :=
  { fragments := [], present_fragment := none, cursor := 0 }

/-- Embeds `History::redo_amount` from hist.rs: `fragments.len().abs_diff(cursor)`. -/
def History.redo_amount {F : Type} (h : History F) : Nat :=
  max h.fragments.length h.cursor - min h.fragments.length h.cursor

/-- Embeds `History::clear_redo_history` from hist.rs. -/
def History.clear_redo_history {F : Type} (h : History F) : History F :=
  { h with fragments := h.fragments.take h.cursor }

/-- The cursor loop of `History::undo`: for each of `amt` iterations, stop
if the cursor is 0, else decrement it (the `vm.undo` call mutates only the
VM).  Returns the final cursor and `amt_rewinded`. -/
def undoLoop : Nat → Nat → Nat × Nat
  | cursor, 0 => (cursor, 0)
  | cursor, amt + 1 =>
    if cursor = 0 then (cursor, 0)
    else
      let r := undoLoop (cursor - 1) amt
      (r.1, r.2 + 1)

/-- Embeds `History::undo` from hist.rs.  `present` is `vm.to_history_fragment()`,
taken when not already in the past.  Returns the updated history and the
number of fragments actually reversed. -/
def History.undo {F : Type} (h : History F) (present : F) (amt : Nat) : History F × Nat :=
  let h1 := if h.redo_amount = 0 then { h with present_fragment := some present } else h
  let r := undoLoop h1.cursor amt
  ({ h1 with cursor := r.1 }, r.2)

/-- Embeds `History::step` from hist.rs, abstracted over the VM: `state` is
`vm.to_history_fragment()` taken before the step, `ok` is
`vm.step().is_ok()`, and `waiting` is `vm.interpreter().waiting`.  The
`drain_event_queue`, `update_memory_access_flags` and `restore` calls
mutate only the VM; `present_fragment.take()` clears the snapshot once the
cursor is back at the present. -/
def History.step {F : Type} [DecidableEq F] (h : History F) (state : F) (ok waiting : Bool) :
    History F :=
  let redo0 := h.redo_amount
  let fr1 :=
    if 0 < redo0 ∧ h.fragments[h.cursor]? ≠ some state then
      (h.fragments.take h.cursor, 0)
    else
      (h.fragments, redo0)
  let fragments2 :=
    if fr1.2 = 0 ∧ waiting = false ∧ ok = true then
      (if fr1.1.length = HISTORY_CAPACITY then fr1.1.tail else fr1.1) ++ [state]
    else
      fr1.1
  let cursor2 := min (h.cursor + 1) fragments2.length
  let present2 := if fragments2.length ≠ cursor2 then h.present_fragment else none
  { fragments := fragments2, present_fragment := present2, cursor := cursor2 }

/-- One user-visible history operation (spec §4.5). -/
inductive HistOp (F : Type)
  | step (state : F) (ok waiting : Bool)
  | undo (present : F) (amt : Nat)
  | clear_redo

/-- Apply one history operation. -/
def applyOp {F : Type} [DecidableEq F] (h : History F) : HistOp F → History F
  | .step state ok waiting => h.step state ok waiting
  | .undo present amt => (h.undo present amt).1
  | .clear_redo => h.clear_redo_history

/-- Apply a sequence of history operations starting from `History::new`. -/
def applyOps {F : Type} [DecidableEq F] (ops : List (HistOp F)) : History F :=
  ops.foldl applyOp (History.new F)

/-- Spec invariant I4: `cursor ≤ history.length ≤ HISTORY_CAPACITY`. -/
def HistoryInv {F : Type} (h : History F) : Prop :=
  h.cursor ≤ h.fragments.length ∧ h.fragments.length ≤ HISTORY_CAPACITY

/-- A default input snapshot for concrete test states. -/
def baseInput : InterpreterInput :=
  { delay_timer := 0, down_keys := 0, just_pressed_key := none, just_released_key := none }

/-- A default output (blank 32-row display) for concrete test states. -/
def baseOutput : InterpreterOutput :=
  { display := List.replicate 32 0, awaiting_input := false, request := none }

/-- Build a concrete interpreter state for tests. -/
def mkInterp (mem : List Nat) (pc index : Nat) (regs : List Nat) (kind : ProgramKind) :
    Interpreter :=
  { memory := mem, pc := pc, index := index, stack := [], registers := regs,
    input := baseInput, output := baseOutput, kind := kind, rng := [] }

/-- The value of `index` after a successful `step`, `none` if the step did not succeed. -/
def index_after_step (it : Interpreter) : Option Nat :=
  match step it with
  | .ok it2 => some it2.index
  | _ => none

/-- A 4096-byte memory holding `60 05` (SetConstant V0 ← 5) at 0x200. -/
def memSetV0 : List Nat := ((List.replicate 4096 0).set 512 0x60).set 513 0x05

/-- A real-shaped state about to execute SetConstant, with I = 4090: the
step succeeds but undoing it panics in the memory copy. -/
def C1cex : Interpreter := mkInterp memSetV0 512 4090 (List.replicate 16 0) .CHIP48

/-- A small state about to execute SetConstant V0 ← 5. -/
def C1wit : Interpreter :=
  mkInterp ([0x60, 0x05] ++ List.replicate 18 0) 0 0 (List.replicate 16 0) .CHIP48

/-- The state after stepping `C1wit`. -/
def C1wit2 : Interpreter :=
  mkInterp ([0x60, 0x05] ++ List.replicate 18 0) 2 0 ((List.replicate 16 0).set 0 5) .CHIP48

/-- A state whose next word `0xFFFF` is a decode error, with a pending
Display request to make the error state observable. -/
def C3wit : Interpreter :=
  { mkInterp [0xFF, 0xFF] 0 0 (List.replicate 16 0) .CHIP48 with
    output := { baseOutput with request := some .Display } }

/-- The state `step` returns in its decode-error arm for `C3wit`. -/
def C3witE : Interpreter := mkInterp [0xFF, 0xFF] 0 0 (List.replicate 16 0) .CHIP48

/-- A real-shaped interpreter whose index register is 4090. -/
def C4it : Interpreter := mkInterp (List.replicate 4096 0) 512 4090 (List.replicate 16 0) .CHIP48

/-- A history fragment with `instruction` present and `index` = 4090 > 4080. -/
def C4frag : InterpreterHistoryFragment :=
  { instruction := some (.SetConstant 0 0), pc := 512, return_address := 0, index := 4090,
    index_memory := List.replicate 16 0, registers := List.replicate 16 0, payload := none }

/-- A COSMAC-VIP state about to execute GetKey V0 with a just-released
key 7. -/
def C5wit : Interpreter :=
  { mkInterp [0xF0, 0x0A, 0, 0] 0 0 (List.replicate 16 0) .COSMACVIP with
    input := { baseInput with just_released_key := some 7 } }

/-- The state after stepping `C5wit`. -/
def C5wit2 : Interpreter :=
  { mkInterp [0xF0, 0x0A, 0, 0] 2 0 ((List.replicate 16 0).set 0 7) .COSMACVIP with
    input := { baseInput with just_released_key := some 7 } }

/-- A state about to execute SetIndexToHexChar V0 with V0 = 16 (not a hex
digit). -/
def C6cex : Interpreter :=
  mkInterp [0xF0, 0x29, 0, 0] 0 0 ((List.replicate 16 0).set 0 16) .CHIP48

/-- A state about to execute SetIndexToHexChar V0 with V0 = 3. -/
def C6wit : Interpreter :=
  mkInterp [0xF0, 0x29, 0, 0] 0 0 ((List.replicate 16 0).set 0 3) .CHIP48

/-- The state after stepping `C6wit`: I = 0x50 + 5·3 = 95. -/
def C6wit2 : Interpreter :=
  mkInterp [0xF0, 0x29, 0, 0] 2 95 ((List.replicate 16 0).set 0 3) .CHIP48

/-- A 4096-byte memory holding `B1 00` (JumpWithOffset 0x100, x = 1) at
0x200. -/
def memJump : List Nat := ((List.replicate 4096 0).set 512 0xB1).set 513 0x00

/-- A CHIP-48 state about to execute JumpWithOffset 0x100, x = 1. -/
def C7wit : Interpreter := mkInterp memJump 512 0 (List.replicate 16 0) .CHIP48

/-- A 4096-byte memory holding `F1 55` (Store x = 1) at 0x200. -/
def memStore : List Nat := ((List.replicate 4096 0).set 512 0xF1).set 513 0x55

/-- A COSMAC-VIP state about to execute Store x = 1 with I = 0x300,
V0 = 0xAB, V1 = 0xCD. -/
def C8wit : Interpreter :=
  mkInterp memStore 512 0x300 (((List.replicate 16 0).set 0 0xAB).set 1 0xCD) .COSMACVIP

/-- A small concrete history-operation sequence over fragment type `Nat`. -/
def C9ops : List (HistOp Nat) := [.step 5 true false, .undo 9 1, .clear_redo]

/-- A history at capacity with the cursor at the present. -/
def C9full : History Nat :=
  { fragments := List.replicate HISTORY_CAPACITY 0, present_fragment := none,
    cursor := HISTORY_CAPACITY }

/-- A state about to execute Add V15 ← V15 + V1 with V15 = 200, V1 = 100
(carry). -/
def C10wit : Interpreter :=
  mkInterp [0x8F, 0x14, 0, 0] 0 0 (((List.replicate 16 0).set 15 200).set 1 100) .CHIP48

/-- The state after stepping `C10wit`: V15 holds the carry flag 1. -/
def C10wit2 : Interpreter :=
  mkInterp [0x8F, 0x14, 0, 0] 2 0 (((List.replicate 16 0).set 1 100).set 15 1) .CHIP48

/-! ## General list lemmas -/

theorem length_writeSlice (dst src : List Nat) (i : Nat) (h : i + src.length ≤ dst.length) :
    (writeSlice dst i src).length = dst.length := by
  simp only [writeSlice, List.length_append, List.length_take, List.length_drop]
  omega

theorem getElem?_writeSlice (dst src : List Nat) (i : Nat) (h : i + src.length ≤ dst.length)
    (j : Nat) :
    (writeSlice dst i src)[j]? =
      if i ≤ j ∧ j < i + src.length then src[j - i]? else dst[j]? := by
  have hti : (dst.take i).length = i := by simp; omega
  rcases Nat.lt_or_ge j i with hj | hj
  · rw [if_neg (by omega)]
    rw [writeSlice, List.append_assoc, List.getElem?_append, if_pos (by omega),
      List.getElem?_take, if_pos hj]
  · rcases Nat.lt_or_ge j (i + src.length) with hj2 | hj2
    · rw [if_pos ⟨hj, hj2⟩]
      rw [writeSlice, List.append_assoc, List.getElem?_append_right (by omega), hti,
        List.getElem?_append, if_pos (by omega)]
    · rw [if_neg (by omega)]
      rw [writeSlice, List.append_assoc, List.getElem?_append_right (by omega), hti,
        List.getElem?_append_right (by omega)]
      rw [List.getElem?_drop]
      congr 1
      omega

theorem set_getD_self (l : List Nat) (i : Nat) (h : i < l.length) :
    l.set i (l.getD i 0) = l := by
  apply List.ext_getElem?
  intro j
  rcases eq_or_ne i j with rfl | hne
  · rw [List.getElem?_set_eq_of_lt _ h, List.getD_eq_getElem l 0 h, List.getElem?_eq_getElem h]
  · exact List.getElem?_set_ne hne

/-- Splicing the original 16-byte window back over a state that differs from
the original memory only inside that window restores the original memory. -/
theorem restore_mem (mem mem2 : List Nat) (I : Nat)
    (hI : I + 16 ≤ mem.length) (hlen : mem2.length = mem.length)
    (hout : ∀ j, j < I ∨ I + 16 ≤ j → mem2[j]? = mem[j]?) :
    writeSlice mem2 I ((mem.drop I).take 16) = mem := by
  have hsrc : ((mem.drop I).take 16).length = 16 := by simp; omega
  apply List.ext_getElem?
  intro j
  rw [getElem?_writeSlice _ _ _ (by rw [hsrc]; omega), hsrc]
  split
  · rw [List.getElem?_take, if_pos (by omega), List.getElem?_drop]
    congr 1
    omega
  · exact hout j (by omega)

/-! ## Step / exec bridging lemmas -/

@[simp] theorem clearReq_memory (it : Interpreter) : (clearReq it).memory = it.memory := rfl

@[simp] theorem clearReq_pc (it : Interpreter) : (clearReq it).pc = it.pc := rfl

@[simp] theorem clearReq_index (it : Interpreter) : (clearReq it).index = it.index := rfl

@[simp] theorem clearReq_stack (it : Interpreter) : (clearReq it).stack = it.stack := rfl

@[simp] theorem clearReq_registers (it : Interpreter) : (clearReq it).registers = it.registers := rfl

@[simp] theorem clearReq_rng (it : Interpreter) : (clearReq it).rng = it.rng := rfl

@[simp] theorem clearReq_display (it : Interpreter) :
    (clearReq it).output.display = it.output.display := rfl

@[simp] theorem preExec_memory (it : Interpreter) : (preExec it).memory = it.memory := rfl

@[simp] theorem preExec_pc (it : Interpreter) : (preExec it).pc = it.pc + 2 := rfl

@[simp] theorem preExec_index (it : Interpreter) : (preExec it).index = it.index := rfl

@[simp] theorem preExec_stack (it : Interpreter) : (preExec it).stack = it.stack := rfl

@[simp] theorem preExec_registers (it : Interpreter) : (preExec it).registers = it.registers := rfl

@[simp] theorem preExec_input (it : Interpreter) : (preExec it).input = it.input := rfl

@[simp] theorem preExec_kind (it : Interpreter) : (preExec it).kind = it.kind := rfl

@[simp] theorem preExec_rng (it : Interpreter) : (preExec it).rng = it.rng := rfl

@[simp] theorem preExec_display (it : Interpreter) :
    (preExec it).output.display = it.output.display := rfl

@[simp] theorem reg_preExec (it : Interpreter) (v : Nat) : reg (preExec it) v = reg it v := rfl

/-- The function `step` written through `clearReq` and `preExec` (definitional). -/
theorem step_eq (it : Interpreter) :
    step it =
      match fetch it with
      | none => .err (clearReq it)
      | some params =>
        match decode params with
        | none => .err (clearReq it)
        | some inst =>
          match exec (preExec it) inst with
          | .ok it2 => .ok it2
          | .err it2 => .err { it2 with pc := it2.pc - 2 }
          | .panic => .panic := rfl

/-- A successful `step` is a successful `exec` on the prepared state. -/
theorem step_ok_exec (it it2 : Interpreter) (p : InstructionParameters) (inst : Instruction)
    (hp : fetch it = some p) (hd : decode p = some inst) (hstep : step it = .ok it2) :
    exec (preExec it) inst = .ok it2 := by
  rw [step_eq, hp] at hstep
  simp only [hd] at hstep
  rcases hE : exec (preExec it) inst with a | a | _ <;> rw [hE] at hstep <;> simp at hstep
  rw [hstep]

/-- The function `exec` returns `.err` only at bound checks that run before any
mutation: the carried error state is the input state. -/
theorem exec_err_eq (it e : Interpreter) (inst : Instruction) (h : exec it inst = .err e) :
    e = it := by
  cases inst <;> simp only [exec] at h <;> (try (repeat' split at h)) <;> simp_all

/-! ## toFragment projections -/

@[simp] theorem toFragment_pc (it : Interpreter) : (toFragment it).pc = it.pc := rfl

@[simp] theorem toFragment_index (it : Interpreter) : (toFragment it).index = it.index := rfl

@[simp] theorem toFragment_registers (it : Interpreter) :
    (toFragment it).registers = it.registers := rfl

@[simp] theorem toFragment_instruction (it : Interpreter) :
    (toFragment it).instruction = (fetch it).bind decode := rfl

@[simp] theorem toFragment_return_address (it : Interpreter) :
    (toFragment it).return_address = it.stack.headD 0 := rfl

/-! ## C3: errors leave the interpreter state unchanged -/

/-- C3: whenever `step` returns an error (fetch failure, decode error, or
execution failure), the program counter after the step equals the program
counter before it, and memory, registers, index register, stack, and
display buffer are all unchanged. -/
theorem C3_error_preserves_state (it e : Interpreter) (hstep : step it = .err e) :
    e.pc = it.pc ∧ e.memory = it.memory ∧ e.registers = it.registers ∧
    e.index = it.index ∧ e.stack = it.stack ∧ e.output.display = it.output.display := by
  rw [step_eq] at hstep
  rcases hF : fetch it with _ | p
  · rw [hF] at hstep
    simp at hstep
    subst hstep
    simp
  · rw [hF] at hstep
    rcases hD : decode p with _ | inst
    · simp only [hD] at hstep
      simp at hstep
      subst hstep
      simp
    · simp only [hD] at hstep
      rcases hE : exec (preExec it) inst with a | a | _ <;> rw [hE] at hstep <;> simp at hstep
      have ha := exec_err_eq _ _ _ hE
      subst ha
      subst hstep
      simp

/-- Witness for C3: a concrete decode-error step (word 0xFFFF). -/
theorem C3_error_preserves_state_witness :
    step C3wit = .err C3witE ∧
      (C3witE.pc = C3wit.pc ∧ C3witE.memory = C3wit.memory ∧
        C3witE.registers = C3wit.registers ∧ C3witE.index = C3wit.index ∧
        C3witE.stack = C3wit.stack ∧ C3witE.output.display = C3wit.output.display) :=
  ⟨by decide, C3_error_preserves_state C3wit C3witE (by decide)⟩

/-! ## C2: decoding of unlisted encodings -/

/-- C2 (code bug): the decoder accepts `0x5xyn` for every low nibble `n`,
although the decoding table lists only `0x5xy0` and the parallel `0x9xy0`
case does check its low nibble: `0x5121` decodes as `SkipIfEquals 1 2`
instead of yielding a decode error, while `0x9121` is correctly rejected. -/
theorem C2_decode_accepts_bad_5xyn :
    decode (InstructionParameters.ofBits 0x5121) = some (.SkipIfEquals 1 2) ∧
      decode (InstructionParameters.ofBits 0x9121) = none := by decide

/-! ## C6: SetIndexToHexChar -/

/-- C6 counterexample: with V0 = 16, the code sets I to
`0x50 + 5·16 = 160`, not to `0x50 + 5·(V0 & 0x0F) = 0x50` as claimed. -/
theorem C6_counterexample :
    reg C6cex 0 = 16 ∧ index_after_step C6cex = some 160 ∧
      ¬ index_after_step C6cex = some (0x50 + 5 * (reg C6cex 0 &&& 0xF)) := by decide

/-- C6 (amended): executing SetIndexToHexChar(x) sets
`I = 0x50 + 5 · Vx` with no masking of Vx. -/
theorem C6_set_index_to_hex_char (it it2 : Interpreter) (x : Nat)
    (hdec : (fetch it).bind decode = some (.SetIndexToHexChar x))
    (hstep : step it = .ok it2) :
    it2.index = FONT_STARTING_ADDRESS + FONT_CHAR_DATA_SIZE * reg it x := by
  obtain ⟨p, hp, hd⟩ := Option.bind_eq_some.mp hdec
  have hE := step_ok_exec it it2 p _ hp hd hstep
  simp only [exec] at hE
  simp at hE
  subst hE
  simp

/-- Witness for C6: with V0 = 3 the index becomes 0x50 + 15 = 95. -/
theorem C6_set_index_to_hex_char_witness :
    C6wit2.index = FONT_STARTING_ADDRESS + FONT_CHAR_DATA_SIZE * reg C6wit 0 :=
  C6_set_index_to_hex_char C6wit C6wit2 0 (by decide) (by decide)

/-! ## C4: undo's memory copy for large I -/

/-- C4 (code bug): on a fragment with `instruction` present and I = 4090,
`undo` panics (`none`) in `copy_from_slice` — destination length
`min(4090+16, 4096) − 4090 = 6` differs from the 16-byte source — instead
of copying back only the first `4096 − I` bytes as the claim states. -/
theorem undo_panics (it0 : Interpreter) (prior : InterpreterHistoryFragment)
    (h : ¬ min (prior.index + 16) it0.memory.length - prior.index = 16) :
    undo it0 prior = none := by
  simp only [undo]
  split
  · rename_i hc
    exact absurd hc h
  · rfl

theorem C4_undo_panics_above_4080 :
    C4frag.instruction = some (.SetConstant 0 0) ∧ C4frag.index = 4090 ∧
      C4it.memory.length = 4096 ∧ undo C4it C4frag = none := by
  have hlen : C4it.memory.length = 4096 := by
    rw [show C4it.memory = List.replicate 4096 0 from rfl, List.length_replicate]
  refine ⟨rfl, rfl, hlen, ?_⟩
  apply undo_panics
  rw [show C4frag.index = 4090 from rfl, hlen]
  norm_num

/-! ## C1 counterexample: round-trip as stated fails at I = 4090 -/

/-- C1 counterexample: a state executing SetConstant (not one of the five
excluded instructions) with I = 4090: `step` succeeds but the subsequent
`undo` with the pre-step fragment panics instead of restoring the state. -/
theorem C1_round_trip_counterexample :
    (fetch C1cex).bind decode = some (.SetConstant 0 5) ∧
      step_then_undo C1cex = some none := by
  have hlen : memSetV0.length = 4096 := by
    rw [memSetV0, List.length_set, List.length_set, List.length_replicate]
  have h512 : memSetV0[512]? = some 0x60 := by
    rw [memSetV0, List.getElem?_set_ne (by omega),
      List.getElem?_set_eq_of_lt _ (by rw [List.length_replicate]; omega)]
  have h513 : memSetV0[513]? = some 0x05 := by
    rw [memSetV0,
      List.getElem?_set_eq_of_lt _ (by rw [List.length_set, List.length_replicate]; omega)]
  have hbits : ((0x60 : Nat) <<< 8 ||| 0x05) = 0x6005 := by decide
  have hfetch : fetch C1cex = some (InstructionParameters.ofBits 0x6005) := by
    unfold fetch
    rw [show C1cex.pc = 512 from rfl, show C1cex.memory = memSetV0 from rfl, hlen,
      if_pos (by omega), show (512 : Nat) + 1 = 513 from rfl, List.getD_eq_getElem?_getD,
      List.getD_eq_getElem?_getD, h512, h513, Option.getD_some, Option.getD_some, hbits]
  have hdec : decode (InstructionParameters.ofBits 0x6005) = some (.SetConstant 0 5) := by
    decide
  have hstep : step C1cex = .ok { preExec C1cex with registers := C1cex.registers.set 0 5 } := by
    rw [step_eq, hfetch]
    simp only [hdec, exec]
    rfl
  refine ⟨by rw [hfetch]; exact hdec, ?_⟩
  simp only [step_then_undo, hstep]
  refine congrArg some ?_
  apply undo_panics
  have hm : ({ preExec C1cex with registers := C1cex.registers.set 0 5 } : Interpreter).memory = memSetV0 := rfl
  rw [toFragment_index, show C1cex.index = 4090 from rfl, hm, hlen]
  norm_num

/-! ## C7: JumpWithOffset -/

/-- Evaluate `fetch` from pointwise memory facts. -/
theorem fetch_eq_of (it : Interpreter) (w0 w1 : Nat)
    (hlt : it.pc + 1 < it.memory.length)
    (h0 : it.memory[it.pc]? = some w0) (h1 : it.memory[it.pc + 1]? = some w1) :
    fetch it = some (InstructionParameters.ofBits (w0 <<< 8 ||| w1)) := by
  unfold fetch
  rw [if_pos (by omega), List.getD_eq_getElem?_getD, List.getD_eq_getElem?_getD, h0, h1,
    Option.getD_some, Option.getD_some]

/-- C7: JumpWithOffset(nnn, x) adds V0 under COSMAC-VIP and Vx under
CHIP-48; it sets PC to nnn + offset when that is below 4096 and fails,
leaving PC unchanged, exactly when nnn + offset ≥ 4096. -/
theorem C7_jump_with_offset (it : Interpreter) (nnn x : Nat)
    (hmem : it.memory.length = 4096)
    (hdec : (fetch it).bind decode = some (.JumpWithOffset nnn x)) :
    (nnn + jump_offset it x < 4096 →
      ∃ it2, step it = .ok it2 ∧ it2.pc = nnn + jump_offset it x) ∧
    (4096 ≤ nnn + jump_offset it x →
      ∃ e, step it = .err e ∧ e.pc = it.pc) := by
  obtain ⟨p, hp, hd⟩ := Option.bind_eq_some.mp hdec
  rw [step_eq, hp]
  simp only [hd, exec, preExec_kind, reg_preExec, preExec_memory, hmem, jump_offset]
  constructor
  · intro h
    rw [if_pos (by omega)]
    exact ⟨_, rfl, by simp [Nat.add_comm]⟩
  · intro h
    rw [if_neg (by omega)]
    exact ⟨_, rfl, by simp⟩

/-- Witness for C7: a concrete in-bounds JumpWithOffset under CHIP-48. -/
theorem C7_jump_with_offset_witness :
    ∃ it2, step C7wit = .ok it2 ∧ it2.pc = 0x100 + jump_offset C7wit 1 := by
  have hlen : memJump.length = 4096 := by
    rw [memJump, List.length_set, List.length_set, List.length_replicate]
  have h512 : memJump[512]? = some 0xB1 := by
    rw [memJump, List.getElem?_set_ne (by omega),
      List.getElem?_set_eq_of_lt _ (by rw [List.length_replicate]; omega)]
  have h513 : memJump[513]? = some 0x00 := by
    rw [memJump,
      List.getElem?_set_eq_of_lt _ (by rw [List.length_set, List.length_replicate]; omega)]
  have hfetch := fetch_eq_of C7wit 0xB1 0x00
    (by rw [show C7wit.memory = memJump from rfl, hlen, show C7wit.pc = 512 from rfl]; omega)
    (by rw [show C7wit.memory = memJump from rfl, show C7wit.pc = 512 from rfl]; exact h512)
    (by rw [show C7wit.memory = memJump from rfl, show C7wit.pc = 512 from rfl]; exact h513)
  rw [show ((0xB1 : Nat) <<< 8 ||| 0x00) = 0xB100 from by decide] at hfetch
  exact (C7_jump_with_offset C7wit 0x100 1
    (by rw [show C7wit.memory = memJump from rfl]; exact hlen)
    (by rw [hfetch]; decide)).1 (by decide)

/-! ## C10: VF write ordering -/

theorem getD_set_self (l : List Nat) (i a : Nat) (h : i < l.length) :
    (l.set i a).getD i 0 = a := by
  rw [List.getD_eq_getElem?_getD, List.getElem?_set_eq_of_lt _ h, Option.getD_some]

/-- C10: for Add(15, y) and Sub(15, y, _) the final VF is the carry /
not-borrow flag (the flag is written after the result into the same
register), whereas for Shift(15, y, right) the final VF is the shifted
source value (the flag is written first and then overwritten by the
result). -/
theorem C10_flag_write_order (it it2 : Interpreter) (y : Nat) (b : Bool)
    (hreg : it.registers.length = 16) :
    ((fetch it).bind decode = some (.Add 15 y) → step it = .ok it2 →
      reg it2 15 = if 256 ≤ reg it 15 + reg it y then 1 else 0) ∧
    ((fetch it).bind decode = some (.Sub 15 y b) → step it = .ok it2 →
      reg it2 15 =
        if (if b then reg it 15 < reg it y else reg it y < reg it 15) then 0 else 1) ∧
    ((fetch it).bind decode = some (.Shift 15 y true) → step it = .ok it2 →
      reg it2 15 = (match it.kind with | .COSMACVIP => reg it y | _ => reg it 15) >>> 1) := by
  refine ⟨?_, ?_, ?_⟩
  · intro hdec hstep
    obtain ⟨p, hp, hd⟩ := Option.bind_eq_some.mp hdec
    have hE := step_ok_exec it it2 p _ hp hd hstep
    simp only [exec, reg_preExec, preExec_registers, VFLAG] at hE
    simp at hE
    subst hE
    simp only [reg]
    rw [getD_set_self _ _ _ (by omega)]
  · intro hdec hstep
    obtain ⟨p, hp, hd⟩ := Option.bind_eq_some.mp hdec
    have hE := step_ok_exec it it2 p _ hp hd hstep
    simp only [exec, reg_preExec, preExec_registers, VFLAG] at hE
    simp at hE
    subst hE
    simp only [reg]
    rw [getD_set_self _ _ _ (by omega)]
    cases b <;> rfl
  · intro hdec hstep
    obtain ⟨p, hp, hd⟩ := Option.bind_eq_some.mp hdec
    have hE := step_ok_exec it it2 p _ hp hd hstep
    simp only [exec, reg_preExec, preExec_registers, preExec_kind, VFLAG] at hE
    simp at hE
    subst hE
    simp only [reg]
    rw [getD_set_self _ _ _ (by omega)]

/-- Witness for C10: Add V15 ← V15 + V1 with 200 + 100 carries, VF = 1. -/
theorem C10_flag_write_order_witness :
    reg C10wit2 15 = if 256 ≤ reg C10wit 15 + reg C10wit 1 then 1 else 0 :=
  (C10_flag_write_order C10wit C10wit2 1 true (by decide)).1 (by decide) (by decide)

/-! ## C5: GetKey and awaiting_input -/

@[simp] theorem pick_key_preExec (it : Interpreter) (a b : Option Nat) :
    pick_key (preExec it) a b = pick_key it a b := rfl

/-- The predicate `blocked_on_get_key` holds exactly when the next instruction is a
GetKey whose chosen key is absent. -/
theorem blocked_iff (it : Interpreter) :
    blocked_on_get_key it = true ↔
      ∃ x, (fetch it).bind decode = some (.GetKey x) ∧
        pick_key it it.input.just_pressed_key it.input.just_released_key = none := by
  unfold blocked_on_get_key
  rcases h : (fetch it).bind decode with _ | inst
  · simp
  · cases inst <;> simp [Option.isNone_iff_eq_none]

/-- C5: under COSMAC-VIP GetKey consumes `just_released_key`, otherwise
`just_pressed_key`, storing the key in Vx; when the chosen key is absent
the PC is left where it was (re-execute next tick) and `awaiting_input` is
set; `awaiting_input` is true iff the step was a blocking GetKey with no
key delivered. -/
theorem C5_get_key (it it2 : Interpreter) (hstep : vmStep it = .ok it2) :
    (it2.output.awaiting_input = true ↔
      ∃ x, (fetch it).bind decode = some (.GetKey x) ∧
        pick_key it it.input.just_pressed_key it.input.just_released_key = none) ∧
    (∀ x, (fetch it).bind decode = some (.GetKey x) →
      pick_key it it.input.just_pressed_key it.input.just_released_key =
        (if it.kind = .COSMACVIP then it.input.just_released_key
          else it.input.just_pressed_key) ∧
      (∀ k, pick_key it it.input.just_pressed_key it.input.just_released_key = some k →
        it2.registers = it.registers.set x k ∧ it2.pc = it.pc + 2) ∧
      (pick_key it it.input.just_pressed_key it.input.just_released_key = none →
        it2.pc = it.pc)) := by
  unfold vmStep at hstep
  rcases hS : step it with a | a | _ <;> rw [hS] at hstep <;> simp at hstep
  subst hstep
  constructor
  · simpa using blocked_iff it
  · intro x hdec
    obtain ⟨p, hp, hd⟩ := Option.bind_eq_some.mp hdec
    have hE := step_ok_exec it a p _ hp hd hS
    simp only [exec, pick_key_preExec, preExec_input] at hE
    refine ⟨by simp only [pick_key]; rcases hk : it.kind <;> simp, ?_, ?_⟩
    · intro k hk
      rw [hk] at hE
      simp at hE
      subst hE
      simp
    · intro hk
      rw [hk] at hE
      simp at hE
      subst hE
      simp

/-- Witness for C5: a COSMAC-VIP GetKey consuming just-released key 7. -/
theorem C5_get_key_witness :
    (C5wit2.output.awaiting_input = true ↔
      ∃ x, (fetch C5wit).bind decode = some (.GetKey x) ∧
        pick_key C5wit C5wit.input.just_pressed_key C5wit.input.just_released_key = none) ∧
    (∀ x, (fetch C5wit).bind decode = some (.GetKey x) →
      pick_key C5wit C5wit.input.just_pressed_key C5wit.input.just_released_key =
        (if C5wit.kind = .COSMACVIP then C5wit.input.just_released_key
          else C5wit.input.just_pressed_key) ∧
      (∀ k, pick_key C5wit C5wit.input.just_pressed_key C5wit.input.just_released_key =
          some k → C5wit2.registers = C5wit.registers.set x k ∧ C5wit2.pc = C5wit.pc + 2) ∧
      (pick_key C5wit C5wit.input.just_pressed_key C5wit.input.just_released_key = none →
        C5wit2.pc = C5wit.pc)) :=
  C5_get_key C5wit C5wit2 (by decide)

/-! ## C8: Load and Store -/

@[simp] theorem checked_addr_add_preExec (it : Interpreter) (a b : Nat) :
    checked_addr_add (preExec it) a b = checked_addr_add it a b := rfl

theorem checked_addr_add_none (it : Interpreter) (a b : Nat)
    (hmem : it.memory.length = 4096) (h : 4096 ≤ a + b) :
    checked_addr_add it a b = none := by
  unfold checked_addr_add
  rw [hmem, if_neg]
  rintro ⟨h1, h2, h3⟩
  rw [Nat.mod_eq_of_lt h3] at h2
  omega

theorem checked_addr_add_some (it : Interpreter) (a b : Nat)
    (hmem : it.memory.length = 4096) (h : a + b < 4096) :
    checked_addr_add it a b = some (a + b) := by
  unfold checked_addr_add
  rw [hmem, Nat.mod_eq_of_lt (by omega), if_pos (by omega)]

/-- C8: Load(x)/Store(x) transfer registers V0..Vx to/from
memory[I..I+x]; they fail with no transfer exactly when I + x ≥ 4096; on
success, under COSMAC-VIP the index register becomes I + x + 1 and under
CHIP-48 it is unchanged. -/
theorem C8_load_store (it : Interpreter) (x : Nat)
    (hmem : it.memory.length = 4096) :
    ((fetch it).bind decode = some (.Load x) →
      (4096 ≤ it.index + x →
        ∃ e, step it = .err e ∧ e.memory = it.memory ∧ e.registers = it.registers ∧
          e.index = it.index) ∧
      (it.index + x < 4096 →
        ∃ it2, step it = .ok it2 ∧
          it2.registers = writeSlice it.registers 0 ((it.memory.drop it.index).take (x + 1)) ∧
          it2.memory = it.memory ∧
          it2.index = if it.kind = .COSMACVIP then it.index + x + 1 else it.index)) ∧
    ((fetch it).bind decode = some (.Store x) →
      (4096 ≤ it.index + x →
        ∃ e, step it = .err e ∧ e.memory = it.memory ∧ e.registers = it.registers ∧
          e.index = it.index) ∧
      (it.index + x < 4096 →
        ∃ it2, step it = .ok it2 ∧
          it2.memory = writeSlice it.memory it.index (it.registers.take (x + 1)) ∧
          it2.registers = it.registers ∧
          it2.index = if it.kind = .COSMACVIP then it.index + x + 1 else it.index)) := by
  constructor
  all_goals
    intro hdec
    obtain ⟨p, hp, hd⟩ := Option.bind_eq_some.mp hdec
    rw [step_eq, hp]
    simp only [hd, exec, checked_addr_add_preExec, preExec_index, preExec_memory,
      preExec_registers, preExec_kind]
    constructor
  · intro h
    rw [checked_addr_add_none it _ _ hmem h]
    exact ⟨_, rfl, by simp⟩
  · intro h
    rw [checked_addr_add_some it _ _ hmem h]
    rcases hk : it.kind
    · exact ⟨_, rfl, by simp, by simp, by simp; omega⟩
    · exact ⟨_, rfl, by simp, by simp, by simp⟩
  · intro h
    rw [checked_addr_add_none it _ _ hmem h]
    exact ⟨_, rfl, by simp⟩
  · intro h
    rw [checked_addr_add_some it _ _ hmem h]
    rcases hk : it.kind
    · exact ⟨_, rfl, by simp, by simp, by simp; omega⟩
    · exact ⟨_, rfl, by simp, by simp, by simp⟩

/-- Witness for C8: a successful COSMAC-VIP Store of V0..V1 at I = 0x300. -/
theorem C8_load_store_witness :
    ∃ it2, step C8wit = .ok it2 ∧
      it2.memory = writeSlice C8wit.memory C8wit.index (C8wit.registers.take (1 + 1)) ∧
      it2.registers = C8wit.registers ∧
      it2.index = if C8wit.kind = .COSMACVIP then C8wit.index + 1 + 1 else C8wit.index := by
  have hlen : memStore.length = 4096 := by
    rw [memStore, List.length_set, List.length_set, List.length_replicate]
  have h512 : memStore[512]? = some 0xF1 := by
    rw [memStore, List.getElem?_set_ne (by omega),
      List.getElem?_set_eq_of_lt _ (by rw [List.length_replicate]; omega)]
  have h513 : memStore[513]? = some 0x55 := by
    rw [memStore,
      List.getElem?_set_eq_of_lt _ (by rw [List.length_set, List.length_replicate]; omega)]
  have hfetch := fetch_eq_of C8wit 0xF1 0x55
    (by rw [show C8wit.memory = memStore from rfl, hlen, show C8wit.pc = 512 from rfl]; omega)
    (by rw [show C8wit.memory = memStore from rfl, show C8wit.pc = 512 from rfl]; exact h512)
    (by rw [show C8wit.memory = memStore from rfl, show C8wit.pc = 512 from rfl]; exact h513)
  rw [show ((0xF1 : Nat) <<< 8 ||| 0x55) = 0xF155 from by decide] at hfetch
  exact ((C8_load_store C8wit 1
    (by rw [show C8wit.memory = memStore from rfl]; exact hlen)).2
    (by rw [hfetch]; decide)).2 (by decide)

/-! ## C9: history ring invariant and eviction -/

theorem undoLoop_fst_le (a : Nat) : ∀ c : Nat, (undoLoop c a).1 ≤ c := by
  induction a with
  | zero => intro c; exact Nat.le_refl c
  | succ a ih =>
    intro c
    unfold undoLoop
    split
    · exact Nat.le_refl c
    · simpa using Nat.le_trans (ih (c - 1)) (by omega)

theorem inv_new (F : Type) : HistoryInv (History.new F) := by
  exact ⟨Nat.le_refl 0, by rw [History.new]; exact Nat.zero_le _⟩

theorem inv_undo {F : Type} (h : History F) (p : F) (a : Nat) (hi : HistoryInv h) :
    HistoryInv (h.undo p a).1 := by
  obtain ⟨hc, hl⟩ := hi
  unfold History.undo HistoryInv
  split <;> simp <;> exact ⟨Nat.le_trans (undoLoop_fst_le _ _) hc, hl⟩

theorem inv_clear_redo {F : Type} (h : History F) (hi : HistoryInv h) :
    HistoryInv h.clear_redo_history := by
  obtain ⟨hc, hl⟩ := hi
  unfold History.clear_redo_history HistoryInv
  simp only [List.length_take]
  constructor <;> omega

theorem inv_step {F : Type} [DecidableEq F] (h : History F) (s : F) (ok w : Bool)
    (hi : HistoryInv h) : HistoryInv (h.step s ok w) := by
  obtain ⟨hc, hl⟩ := hi
  unfold HISTORY_CAPACITY at hl
  refine ⟨?_, ?_⟩
  · simp only [History.step]
    exact Nat.min_le_right _ _
  · simp only [History.step, HISTORY_CAPACITY]
    repeat' split
    all_goals simp_all [List.length_append, List.length_tail, List.length_take]
    all_goals omega

/-- C9: after any sequence of history step / undo / clear_redo operations,
`cursor ≤ history.length ≤ HISTORY_CAPACITY` holds; and at capacity with
the cursor at the present, recording one more fragment evicts exactly one
fragment from the front, leaving the length at capacity and the cursor at
the present. -/
theorem C9_history_invariant_and_eviction {F : Type} [DecidableEq F] :
    (∀ ops : List (HistOp F), HistoryInv (applyOps ops)) ∧
    (∀ (h : History F) (s : F), HistoryInv h → h.cursor = h.fragments.length →
      h.fragments.length = HISTORY_CAPACITY →
      (h.step s true false).fragments = h.fragments.tail ++ [s] ∧
      (h.step s true false).fragments.length = HISTORY_CAPACITY ∧
      (h.step s true false).cursor = HISTORY_CAPACITY) := by
  constructor
  · intro ops
    suffices H : ∀ (l : List (HistOp F)) (h : History F),
        HistoryInv h → HistoryInv (l.foldl applyOp h) by
      exact H ops (History.new F) (inv_new F)
    intro l
    induction l with
    | nil => intro h hh; exact hh
    | cons o t ih =>
      intro h hh
      apply ih
      cases o with
      | step s ok w => exact inv_step _ _ _ _ hh
      | undo p a => exact inv_undo _ _ _ hh
      | clear_redo => exact inv_clear_redo _ hh
  · intro h s hi hcur hcap
    have hredo : h.redo_amount = 0 := by
      unfold History.redo_amount
      omega
    have hfr : (h.step s true false).fragments = h.fragments.tail ++ [s] := by
      simp only [History.step, hredo]
      have c1 : ¬(0 < (0 : Nat) ∧ h.fragments[h.cursor]? ≠ some s) := by
        rintro ⟨h0, _⟩
        omega
      rw [if_neg c1]
      have c2 : ((h.fragments, (0 : Nat)).2 = 0 ∧ True ∧ True) := ⟨rfl, trivial, trivial⟩
      rw [if_pos c2]
      have c3 : (h.fragments, (0 : Nat)).1.length = HISTORY_CAPACITY := hcap
      rw [if_pos c3]
    have hlen : (h.step s true false).fragments.length = HISTORY_CAPACITY := by
      rw [hfr, List.length_append, List.length_tail, hcap]
      simp [HISTORY_CAPACITY]
    refine ⟨hfr, hlen, ?_⟩
    have hcval : (h.step s true false).cursor =
        min (h.cursor + 1) (h.step s true false).fragments.length := by
      simp only [History.step]
    rw [hcval, hlen, hcur, hcap]
    omega

/-- Witness for C9: a concrete operation sequence keeps the invariant, and
a concrete at-capacity history evicts one fragment from the front. -/
theorem C9_history_invariant_and_eviction_witness :
    HistoryInv (applyOps C9ops) ∧
      ((C9full.step 0 true false).fragments = C9full.fragments.tail ++ [0] ∧
        (C9full.step 0 true false).fragments.length = HISTORY_CAPACITY ∧
        (C9full.step 0 true false).cursor = HISTORY_CAPACITY) := by
  have hflen : C9full.fragments.length = HISTORY_CAPACITY := by
    rw [show C9full.fragments = List.replicate HISTORY_CAPACITY 0 from rfl,
      List.length_replicate]
  refine ⟨(C9_history_invariant_and_eviction (F := Nat)).1 C9ops,
    (C9_history_invariant_and_eviction (F := Nat)).2 C9full 0 ⟨?_, ?_⟩ ?_ hflen⟩
  · rw [show C9full.cursor = HISTORY_CAPACITY from rfl, hflen]
  · rw [hflen]
  · rw [show C9full.cursor = HISTORY_CAPACITY from rfl, hflen]

/-! ## Display XOR lemmas -/

theorem wtd_succ (d : DisplayBuffer) (s : List Nat) (x y n : Nat) :
    write_to_display d s x y (n + 1) =
      (if y % 32 + n < 32 then
        ((write_to_display d s x y n).1.set (y % 32 + n)
          ((write_to_display d s x y n).1.getD (y % 32 + n) 0 ^^^
            spriteRowMask (x % 64) (s.getD n 0)),
         (write_to_display d s x y n).2 ||
           decide ((write_to_display d s x y n).1.getD (y % 32 + n) 0 &&&
             spriteRowMask (x % 64) (s.getD n 0) ≠ 0))
      else write_to_display d s x y n) := by
  simp only [write_to_display]
  rw [List.range_succ, List.foldl_append, List.foldl_cons, List.foldl_nil]

theorem wtd_length (d : DisplayBuffer) (s : List Nat) (x y : Nat) :
    ∀ n, (write_to_display d s x y n).1.length = d.length := by
  intro n
  induction n with
  | zero => rfl
  | succ n ih =>
    rw [wtd_succ]
    split
    · simp only [List.length_set]
      exact ih
    · exact ih

theorem wtd_getElem? (d : DisplayBuffer) (s : List Nat) (x y : Nat) :
    ∀ n j, ((write_to_display d s x y n).1)[j]? =
      if y % 32 ≤ j ∧ j < y % 32 + n ∧ j < 32 then
        Option.map (fun v => v ^^^ spriteRowMask (x % 64) (s.getD (j - y % 32) 0)) d[j]?
      else d[j]? := by
  intro n
  induction n with
  | zero =>
    intro j
    rw [if_neg (by omega)]
    rfl
  | succ n ih =>
    intro j
    rw [wtd_succ]
    split
    · rename_i hrow
      rcases eq_or_ne (y % 32 + n) j with hj | hj
      · rcases Nat.lt_or_ge j d.length with hjd | hjd
        · have hl : y % 32 + n < (write_to_display d s x y n).1.length := by
            rw [wtd_length]
            omega
          rw [show ((write_to_display d s x y n).1.set (y % 32 + n)
              ((write_to_display d s x y n).1.getD (y % 32 + n) 0 ^^^
                spriteRowMask (x % 64) (s.getD n 0)), (write_to_display d s x y n).2 ||
              decide ((write_to_display d s x y n).1.getD (y % 32 + n) 0 &&&
                spriteRowMask (x % 64) (s.getD n 0) ≠ 0)).1 =
              (write_to_display d s x y n).1.set (y % 32 + n)
              ((write_to_display d s x y n).1.getD (y % 32 + n) 0 ^^^
                spriteRowMask (x % 64) (s.getD n 0)) from rfl]
          rw [← hj, List.getElem?_set_eq_of_lt _ hl]
          have hprev : ((write_to_display d s x y n).1)[y % 32 + n]? = d[y % 32 + n]? := by
            rw [ih (y % 32 + n), if_neg (by omega)]
          rw [List.getD_eq_getElem?_getD, hprev]
          rw [if_pos (by omega)]
          have hd2 : d[y % 32 + n]? = some d[y % 32 + n] :=
            List.getElem?_eq_getElem (by omega)
          rw [hd2]
          have hsub : y % 32 + n - y % 32 = n := by omega
          rw [hsub]
          rfl
        · have hl : (write_to_display d s x y n).1.length ≤ y % 32 + n := by
            rw [wtd_length]
            omega
          rw [show ∀ (a : List Nat) (b : Bool), (Prod.mk a b).1 = a from fun _ _ => rfl]
          rw [List.set_eq_of_length_le hl, ih j, if_neg (by omega), if_pos (by omega)]
          rw [List.getElem?_eq_none (by omega)]
          rfl
      · rw [show ∀ (a : List Nat) (b : Bool), (Prod.mk a b).1 = a from fun _ _ => rfl]
        rw [List.getElem?_set_ne hj, ih j]
        by_cases hc : y % 32 ≤ j ∧ j < y % 32 + n ∧ j < 32
        · rw [if_pos hc, if_pos (by omega)]
        · rw [if_neg hc, if_neg (by omega)]
    · rename_i hrow
      rw [ih j]
      by_cases hc : y % 32 ≤ j ∧ j < y % 32 + n ∧ j < 32
      · rw [if_pos hc, if_pos (by omega)]
      · rw [if_neg hc, if_neg (by omega)]

theorem wtd_involutive (d : DisplayBuffer) (s : List Nat) (x y n : Nat) :
    (write_to_display (write_to_display d s x y n).1 s x y n).1 = d := by
  apply List.ext_getElem?
  intro j
  rw [wtd_getElem?, wtd_getElem?]
  by_cases hc : y % 32 ≤ j ∧ j < y % 32 + n ∧ j < 32
  · rw [if_pos hc, if_pos hc]
    rcases hd : d[j]? with _ | v
    · rfl
    · simp [Nat.xor_cancel_right]
  · rw [if_neg hc, if_neg hc]

/-! ## C1: step/undo round trip -/

theorem toFragment_index_memory (it : Interpreter) (hidx : it.index + 16 ≤ it.memory.length) :
    (toFragment it).index_memory = (it.memory.drop it.index).take 16 := by
  show (if it.index < it.memory.length then
      (it.memory.drop it.index).take (min (it.index + 16) it.memory.length - it.index) ++
        List.replicate (16 - (min (it.index + 16) it.memory.length - it.index)) 0
    else List.replicate 16 0) = (it.memory.drop it.index).take 16
  have hn : min (it.index + 16) it.memory.length - it.index = 16 := by omega
  rw [if_pos (by omega), hn]
  simp

/-- Undo after a step that changed memory only inside the 16-byte window at
I, and left stack, RNG and display alone, restores the full observable
tuple (all instruction cases whose undo arm is the default one). -/
theorem undo_restores (it it2 : Interpreter) (inst : Instruction)
    (hidx : it.index + 16 ≤ it.memory.length)
    (hfrag : (fetch it).bind decode = some inst)
    (hplain : plainInst inst = true)
    (hlen : it2.memory.length = it.memory.length)
    (hout : ∀ j, j < it.index ∨ it.index + 16 ≤ j → it2.memory[j]? = it.memory[j]?)
    (hstack : it2.stack = it.stack) (hrng : it2.rng = it.rng)
    (hdisp : it2.output.display = it.output.display) :
    ∃ it3, undo it2 (toFragment it) = some it3 ∧
      it3.memory = it.memory ∧ it3.registers = it.registers ∧ it3.pc = it.pc ∧
      it3.index = it.index ∧ it3.stack = it.stack ∧ it3.rng = it.rng ∧
      it3.output.display = it.output.display := by
  have hmem : writeSlice it2.memory it.index ((it.memory.drop it.index).take 16) = it.memory :=
    restore_mem it.memory it2.memory it.index hidx hlen hout
  simp only [undo, toFragment_pc, toFragment_index, toFragment_registers,
    toFragment_instruction, toFragment_index_memory it hidx, hfrag]
  rw [if_pos (by omega)]
  cases inst <;>
    first
      | exact ⟨_, rfl, hmem, rfl, rfl, rfl, hstack, hrng, hdisp⟩
      | exact absurd hplain (by simp [plainInst])

/-- Undo after a Display step: the re-executed XOR draw is self-inverse and
VF is restored explicitly from the fragment, so the full observable tuple
is restored. -/
theorem undo_restores_display (it it2 : Interpreter) (vx vy hh : Nat)
    (hreg : it.registers.length = 16)
    (hidx : it.index + 16 ≤ it.memory.length)
    (hfrag : (fetch it).bind decode = some (.Display vx vy hh))
    (hmem2 : it2.memory = it.memory)
    (hstack : it2.stack = it.stack) (hrng : it2.rng = it.rng)
    (hdisp : it2.output.display =
      (write_to_display it.output.display (it.memory.drop it.index)
        (reg it vx) (reg it vy) hh).1) :
    ∃ it3, undo it2 (toFragment it) = some it3 ∧
      it3.memory = it.memory ∧ it3.registers = it.registers ∧ it3.pc = it.pc ∧
      it3.index = it.index ∧ it3.stack = it.stack ∧ it3.rng = it.rng ∧
      it3.output.display = it.output.display := by
  have hlen : it2.memory.length = it.memory.length := by rw [hmem2]
  have hmem : writeSlice it2.memory it.index ((it.memory.drop it.index).take 16) = it.memory :=
    restore_mem it.memory it2.memory it.index hidx hlen (fun j _ => by rw [hmem2])
  simp only [reg] at hdisp
  simp only [undo, toFragment_pc, toFragment_index, toFragment_registers,
    toFragment_instruction, toFragment_index_memory it hidx, hfrag]
  rw [if_pos (by omega)]
  simp only [exec_display_instruction, reg]
  refine ⟨_, rfl, ?_, ?_, rfl, rfl, hstack, hrng, ?_⟩
  · exact hmem
  · show (it.registers.set VFLAG _).set VFLAG (it.registers.getD VFLAG 0) = it.registers
    rw [List.set_set]
    exact set_getD_self _ _ (by rw [hreg]; decide)
  · rw [hmem, hdisp]
    exact wtd_involutive it.output.display (it.memory.drop it.index)
      (it.registers.getD vx 0) (it.registers.getD vy 0) hh

/-- C1 (amended): for every state with I + 16 ≤ 4096 (the undo memory copy
panics otherwise, see the counterexample) and every instruction other than
ClearScreen, GenerateRandom, CallSubroutine and SubroutineReturn —
Display included — a successful step followed by undo with the pre-step
fragment restores the full (memory, registers, PC, I, stack, RNG, display)
tuple exactly. -/
theorem C1_step_undo_round_trip (it it2 : Interpreter) (inst : Instruction)
    (hreg : it.registers.length = 16)
    (hidx : it.index + 16 ≤ it.memory.length)
    (hdec : (fetch it).bind decode = some inst)
    (hallow : allowed_for_undo inst = true)
    (hstep : step it = .ok it2) :
    ∃ it3, undo it2 (toFragment it) = some it3 ∧
      it3.memory = it.memory ∧ it3.registers = it.registers ∧ it3.pc = it.pc ∧
      it3.index = it.index ∧ it3.stack = it.stack ∧ it3.rng = it.rng ∧
      it3.output.display = it.output.display := by
  obtain ⟨p, hp, hd⟩ := Option.bind_eq_some.mp hdec
  have hE := step_ok_exec it it2 p inst hp hd hstep
  cases inst with
  | ClearScreen => exact absurd hallow (by simp [allowed_for_undo])
  | CallSubroutine nnn => exact absurd hallow (by simp [allowed_for_undo])
  | SubroutineReturn => exact absurd hallow (by simp [allowed_for_undo])
  | GenerateRandom x nn => exact absurd hallow (by simp [allowed_for_undo])
  | Store x =>
    simp only [exec, checked_addr_add_preExec, preExec_index, preExec_memory,
      preExec_registers, preExec_kind] at hE
    rcases hchk : checked_addr_add it it.index x with _ | addr <;>
      simp only [hchk] at hE
    · simp at hE
    · have hb : it.index + x < it.memory.length := by
        simp only [checked_addr_add] at hchk
        split at hchk
        · rename_i hcond
          obtain ⟨h1, h2, h3⟩ := hcond
          rw [Nat.mod_eq_of_lt h3] at h2
          omega
        · simp at hchk
      have hsrc : it.index + (it.registers.take (x + 1)).length ≤ it.memory.length := by
        simp only [List.length_take]
        omega
      have hlenW : (writeSlice it.memory it.index (it.registers.take (x + 1))).length =
          it.memory.length :=
        length_writeSlice it.memory (it.registers.take (x + 1)) it.index hsrc
      have houtW : ∀ j, j < it.index ∨ it.index + 16 ≤ j →
          (writeSlice it.memory it.index (it.registers.take (x + 1)))[j]? = it.memory[j]? := by
        intro j hj
        rw [getElem?_writeSlice _ _ _ hsrc, if_neg (by simp only [List.length_take]; omega)]
      repeat' split at hE
      all_goals rw [ExecOut.ok.injEq] at hE
      all_goals subst hE
      all_goals exact undo_restores it _ _ hidx hdec rfl hlenW houtW rfl rfl rfl
  | StoreDecimal x =>
    simp only [exec, checked_addr_add_preExec, preExec_index, preExec_memory,
      preExec_registers, reg_preExec] at hE
    rcases hchk : checked_addr_add it it.index 2 with _ | addr <;>
      simp only [hchk] at hE
    · simp at hE
    · have hb : it.index + 2 < it.memory.length := by
        simp only [checked_addr_add] at hchk
        split at hchk
        · rename_i hcond
          obtain ⟨h1, h2, h3⟩ := hcond
          rw [Nat.mod_eq_of_lt h3] at h2
          omega
        · simp at hchk
      rw [ExecOut.ok.injEq] at hE
      subst hE
      refine undo_restores it _ _ hidx hdec rfl (by simp) (fun j hj => ?_) rfl rfl rfl
      show ((((it.memory.set (it.index + 2) _).set (it.index + 1) _).set
        (it.index) _))[j]? = it.memory[j]?
      rw [List.getElem?_set_ne (by omega), List.getElem?_set_ne (by omega),
        List.getElem?_set_ne (by omega)]
  | Display vx vy hh =>
    simp only [exec, checked_addr_add_preExec, preExec_index] at hE
    rcases hchk : checked_addr_add it it.index (hh - 1) with _ | addr <;>
      simp only [hchk] at hE
    · simp at hE
    · simp only [exec_display_instruction, reg_preExec, preExec_memory, preExec_registers,
        preExec_display, preExec_index] at hE
      rw [ExecOut.ok.injEq] at hE
      subst hE
      exact undo_restores_display it _ vx vy hh hreg hidx hdec rfl rfl rfl rfl
  | Jump nnn =>
    simp only [exec] at hE
    repeat' split at hE
    all_goals first
      | (rw [ExecOut.ok.injEq] at hE; subst hE;
          exact undo_restores it _ _ hidx hdec rfl rfl (fun _ _ => rfl) rfl rfl rfl)
      | simp at hE
  | JumpWithOffset nnn x =>
    simp only [exec, preExec_kind, reg_preExec, preExec_memory] at hE
    repeat' split at hE
    all_goals first
      | (rw [ExecOut.ok.injEq] at hE; subst hE;
          exact undo_restores it _ _ hidx hdec rfl rfl (fun _ _ => rfl) rfl rfl rfl)
      | simp at hE
  | SkipIfEqualsConstant x nn =>
    simp only [exec] at hE
    repeat' split at hE
    all_goals first
      | (rw [ExecOut.ok.injEq] at hE; subst hE;
          exact undo_restores it _ _ hidx hdec rfl rfl (fun _ _ => rfl) rfl rfl rfl)
      | simp at hE
  | SkipIfNotEqualsConstant x nn =>
    simp only [exec] at hE
    repeat' split at hE
    all_goals first
      | (rw [ExecOut.ok.injEq] at hE; subst hE;
          exact undo_restores it _ _ hidx hdec rfl rfl (fun _ _ => rfl) rfl rfl rfl)
      | simp at hE
  | SkipIfEquals x y =>
    simp only [exec] at hE
    repeat' split at hE
    all_goals first
      | (rw [ExecOut.ok.injEq] at hE; subst hE;
          exact undo_restores it _ _ hidx hdec rfl rfl (fun _ _ => rfl) rfl rfl rfl)
      | simp at hE
  | SkipIfNotEquals x y =>
    simp only [exec] at hE
    repeat' split at hE
    all_goals first
      | (rw [ExecOut.ok.injEq] at hE; subst hE;
          exact undo_restores it _ _ hidx hdec rfl rfl (fun _ _ => rfl) rfl rfl rfl)
      | simp at hE
  | SkipIfKeyDown x =>
    simp only [exec] at hE
    repeat' split at hE
    all_goals first
      | (rw [ExecOut.ok.injEq] at hE; subst hE;
          exact undo_restores it _ _ hidx hdec rfl rfl (fun _ _ => rfl) rfl rfl rfl)
      | simp at hE
  | SkipIfKeyNotDown x =>
    simp only [exec] at hE
    repeat' split at hE
    all_goals first
      | (rw [ExecOut.ok.injEq] at hE; subst hE;
          exact undo_restores it _ _ hidx hdec rfl rfl (fun _ _ => rfl) rfl rfl rfl)
      | simp at hE
  | GetKey x =>
    simp only [exec, pick_key_preExec, preExec_input] at hE
    repeat' split at hE
    all_goals first
      | (rw [ExecOut.ok.injEq] at hE; subst hE;
          exact undo_restores it _ _ hidx hdec rfl rfl (fun _ _ => rfl) rfl rfl rfl)
      | simp at hE
  | SetConstant x nn =>
    simp only [exec] at hE
    rw [ExecOut.ok.injEq] at hE
    subst hE
    exact undo_restores it _ _ hidx hdec rfl rfl (fun _ _ => rfl) rfl rfl rfl
  | AddConstant x nn =>
    simp only [exec] at hE
    rw [ExecOut.ok.injEq] at hE
    subst hE
    exact undo_restores it _ _ hidx hdec rfl rfl (fun _ _ => rfl) rfl rfl rfl
  | Set x y =>
    simp only [exec] at hE
    rw [ExecOut.ok.injEq] at hE
    subst hE
    exact undo_restores it _ _ hidx hdec rfl rfl (fun _ _ => rfl) rfl rfl rfl
  | Or x y =>
    simp only [exec] at hE
    rw [ExecOut.ok.injEq] at hE
    subst hE
    exact undo_restores it _ _ hidx hdec rfl rfl (fun _ _ => rfl) rfl rfl rfl
  | And x y =>
    simp only [exec] at hE
    rw [ExecOut.ok.injEq] at hE
    subst hE
    exact undo_restores it _ _ hidx hdec rfl rfl (fun _ _ => rfl) rfl rfl rfl
  | Xor x y =>
    simp only [exec] at hE
    rw [ExecOut.ok.injEq] at hE
    subst hE
    exact undo_restores it _ _ hidx hdec rfl rfl (fun _ _ => rfl) rfl rfl rfl
  | Add x y =>
    simp only [exec] at hE
    rw [ExecOut.ok.injEq] at hE
    subst hE
    exact undo_restores it _ _ hidx hdec rfl rfl (fun _ _ => rfl) rfl rfl rfl
  | Sub x y b =>
    simp only [exec] at hE
    rw [ExecOut.ok.injEq] at hE
    subst hE
    exact undo_restores it _ _ hidx hdec rfl rfl (fun _ _ => rfl) rfl rfl rfl
  | Shift x y b =>
    simp only [exec] at hE
    repeat' split at hE
    all_goals first
      | (rw [ExecOut.ok.injEq] at hE; subst hE;
          exact undo_restores it _ _ hidx hdec rfl rfl (fun _ _ => rfl) rfl rfl rfl)
      | simp at hE
  | GetDelayTimer x =>
    simp only [exec] at hE
    rw [ExecOut.ok.injEq] at hE
    subst hE
    exact undo_restores it _ _ hidx hdec rfl rfl (fun _ _ => rfl) rfl rfl rfl
  | SetDelayTimer x =>
    simp only [exec] at hE
    rw [ExecOut.ok.injEq] at hE
    subst hE
    exact undo_restores it _ _ hidx hdec rfl rfl (fun _ _ => rfl) rfl rfl rfl
  | SetSoundTimer x =>
    simp only [exec] at hE
    rw [ExecOut.ok.injEq] at hE
    subst hE
    exact undo_restores it _ _ hidx hdec rfl rfl (fun _ _ => rfl) rfl rfl rfl
  | SetIndex nnn =>
    simp only [exec] at hE
    rw [ExecOut.ok.injEq] at hE
    subst hE
    exact undo_restores it _ _ hidx hdec rfl rfl (fun _ _ => rfl) rfl rfl rfl
  | SetIndexToHexChar x =>
    simp only [exec] at hE
    rw [ExecOut.ok.injEq] at hE
    subst hE
    exact undo_restores it _ _ hidx hdec rfl rfl (fun _ _ => rfl) rfl rfl rfl
  | AddToIndex x =>
    simp only [exec] at hE
    rw [ExecOut.ok.injEq] at hE
    subst hE
    exact undo_restores it _ _ hidx hdec rfl rfl (fun _ _ => rfl) rfl rfl rfl
  | Load x =>
    simp only [exec, checked_addr_add_preExec, preExec_index, preExec_memory,
      preExec_registers, preExec_kind] at hE
    repeat' split at hE
    all_goals first
      | (rw [ExecOut.ok.injEq] at hE; subst hE;
          exact undo_restores it _ _ hidx hdec rfl rfl (fun _ _ => rfl) rfl rfl rfl)
      | simp at hE

/-- Witness for C1: a concrete SetConstant step with I = 0 round-trips. -/
theorem C1_step_undo_round_trip_witness :
    ∃ it3, undo C1wit2 (toFragment C1wit) = some it3 ∧
      it3.memory = C1wit.memory ∧ it3.registers = C1wit.registers ∧ it3.pc = C1wit.pc ∧
      it3.index = C1wit.index ∧ it3.stack = C1wit.stack ∧ it3.rng = C1wit.rng ∧
      it3.output.display = C1wit.output.display :=
  C1_step_undo_round_trip C1wit C1wit2 (.SetConstant 0 5) (by decide) (by decide)
    (by decide) (by decide) (by decide)
